import Mathlib

/-!
# Verification of the expo-finance-kit transaction change-relay

A shallow embedding of the native relay logic of `expo-finance-kit`
(`src/ios/ExpoFinanceKitModule.swift`,
`src/ios/FinanceKitBackgroundExtension/BackgroundDeliveryExtension.swift`,
`src/src/utils/validators.ts`), together with theorems settling the
specification claims about it.

Modelling conventions:
* Strings are modelled as `List Char` (`Str`).
* Fallible external calls (file reads, `JSONSerialization`, the FinanceKit
  queries) are modelled by their observable results (`Option`/`Except` values
  carried in the model state or provided by an environment record).
* Epoch timestamps are modelled as natural numbers; Swift renders them into
  file names with an injective decimal textual representation, modelled here
  by `renderNat`.
-/

/-- Strings of the embedded program, modelled as lists of characters. -/
abbrev Str : Type := List Char

/-- The extension of files the Pending-Change Drain processes
(`fileURL.pathExtension == "json"`, ExpoFinanceKitModule.swift line 665). -/
def jsonExt : Str := "json".data

/-- The payload shape built by `convertTransactionChangeToDict`
(ExpoFinanceKitModule.swift lines 777-799): account id, capture timestamp,
and the inserted/updated transaction dictionaries and deleted transaction
ids (each transaction dictionary kept abstract as its serialized text). -/
structure ChangeData where
  accountId : Str
  timestamp : Nat
  inserted : List Str
  updated : List Str
  deleted : List Str
deriving DecidableEq

/-- One file in the `pending_changes` directory, as seen by
`processPendingChanges` (ExpoFinanceKitModule.swift lines 652-680):
its name, its path extension, and the combined result of
`Data(contentsOf:)` followed by `JSONSerialization.jsonObject`
(`none` models a failed read or a failed parse). -/
structure PendingFile where
  name : Str
  ext : Str
  parse : Option ChangeData
deriving DecidableEq

/-- Whether `processPendingChanges` fully processes a file: it must have the
`json` extension and its contents must read and parse successfully. -/
def fileProcessed (f : PendingFile) : Bool :=
  decide (f.ext = jsonExt) && f.parse.isSome

/-- The Pending-Change Drain loop of `processPendingChanges`
(ExpoFinanceKitModule.swift lines 665-679).  `registered` tells whether
`self.module` is non-nil.  For each file with the `json` extension whose
read and parse succeed, the parsed dictionary is dispatched to
`sendEvent("onTransactionsChanged", _)` when a module is registered, and
the file is then deleted.  Files that fail to read or parse, and files
without the `json` extension, are left in place.  Returns the files that
remain and the list of payloads handed to the emission callback, in loop
order. -/
def processFiles (registered : Bool) : List PendingFile → List PendingFile × List ChangeData
  | [] => ([], [])
  | f :: fs =>
    if f.ext = jsonExt then
      match f.parse with
      | some d =>
        let rest := processFiles registered fs
        (rest.1, (if registered then [d] else []) ++ rest.2)
      | none =>
        let rest := processFiles registered fs
        (f :: rest.1, rest.2)
    else
      let rest := processFiles registered fs
      (f :: rest.1, rest.2)

/-- A sample change payload, used to instantiate theorems. -/
def sampleChange : ChangeData := ⟨"A".data, 1, [], [], []⟩

/-- A sample well-formed pending-change file. -/
def sampleGoodFile : PendingFile := ⟨"A_1.json".data, jsonExt, some sampleChange⟩

/-- A sample malformed pending-change file (read or parse fails). -/
def sampleBadFile : PendingFile := ⟨"B_2.json".data, jsonExt, none⟩

/-- The per-account consuming loop of `monitorAccount`
(ExpoFinanceKitModule.swift lines 751-771).  `items` are the change batches
the native async sequence yields (including any it had buffered);
`cancelled i` is the value `Task.isCancelled` has when the loop checks it
before forwarding the item pulled at iteration `i` (the check at line 753
breaks out of the loop before the item is forwarded).  Returns the items
handed to the emission callback, in order. -/
def monitorLoop (cancelled : Nat → Bool) : List ChangeData → Nat → List ChangeData
  | [], _ => []
  | item :: rest, i =>
    if cancelled i then [] else item :: monitorLoop cancelled rest (i + 1)

/-- An opaque FinanceKit history token (never constructed by the module). -/
inductive HistoryToken
  | tok
deriving DecidableEq

/-- The `UserDefaults` slice the monitor touches: the boolean values stored
under string keys (absent keys read back as `none`). -/
def Defaults : Type := Str → Option Bool

/-- Source constant `historyTokenKeyPrefix` (ExpoFinanceKitModule.swift
line 492). -/
def historyTokenKeyStem : Str := "FinanceKitHistoryToken_".data

/-- The `UserDefaults` key for an account's history-token flag. -/
def tokenKey (accountId : Str) : Str := historyTokenKeyStem ++ accountId

/-- `TransactionMonitor.getHistoryToken(for:)` (ExpoFinanceKitModule.swift
lines 878-883): returns `nil` unconditionally — it never reads the stored
defaults.  The `Defaults` argument models the `userDefaults` property of
the monitor the method runs on. -/
def getHistoryToken (_ : Defaults) (_ : Str) : Option HistoryToken := none

/-- `TransactionMonitor.clearHistoryToken(for:)` (ExpoFinanceKitModule.swift
lines 885-888): removes the account's history-token key from
`UserDefaults`. -/
def clearHistoryToken (d : Defaults) (accountId : Str) : Defaults :=
  fun k => if k = tokenKey accountId then none else d k

/-- The arguments `syncAccount` passes to
`FinanceStore.shared.transactionHistory(forAccountID:since:isMonitoring:)`
(ExpoFinanceKitModule.swift lines 604-613): the account, the token from
`getHistoryToken`, and `isMonitoring: false`.  `native` models the native
call by its resulting batch list. -/
def syncFetch (native : Str → Option HistoryToken → Bool → List ChangeData)
    (d : Defaults) (accountId : Str) : List ChangeData :=
  native accountId (getHistoryToken d accountId) false

/-- The arguments `monitorAccount` passes to the same native call
(ExpoFinanceKitModule.swift lines 738-748), with `isMonitoring: true`. -/
def monitorFetch (native : Str → Option HistoryToken → Bool → List ChangeData)
    (d : Defaults) (accountId : Str) : List ChangeData :=
  native accountId (getHistoryToken d accountId) true

/-- Whether a character is a hexadecimal digit, as accepted by
`UUID(uuidString:)`. -/
def isHexDigitChar (c : Char) : Bool :=
  (decide ('0' ≤ c) && decide (c ≤ '9'))
  || (decide ('a' ≤ c) && decide (c ≤ 'f'))
  || (decide ('A' ≤ c) && decide (c ≤ 'F'))

/-- Whether a string is in the canonical 8-4-4-4-12 UUID format accepted by
Foundation's `UUID(uuidString:)`: 36 characters, hyphens at positions
8, 13, 18 and 23, hexadecimal digits elsewhere. -/
def isValidUUIDStr (s : Str) : Bool :=
  decide (s.length = 36) &&
    s.enum.all (fun p =>
      if p.1 = 8 ∨ p.1 = 13 ∨ p.1 = 18 ∨ p.1 = 23 then decide (p.2 = '-')
      else isHexDigitChar p.2)

/-- `UUID(uuidString:)`: `none` on a malformed string, otherwise the
canonical (uppercased) form. -/
def parseUUID (s : Str) : Option Str :=
  if isValidUUIDStr s then some (s.map Char.toUpper) else none

/-- Authorization states of `FinanceStore.authorizationStatus()`. -/
inductive AuthStatus
  | notDetermined
  | denied
  | authorized
deriving DecidableEq

/-- The `FinanceKitError` cases thrown by the native module
(ExpoFinanceKitModule.swift lines 462-467). -/
inductive FKError
  | unavailable
  | unauthorized
  | invalidAccountId
  | accountNotFound
deriving DecidableEq

/-- Which accounts `TransactionMonitor.startMonitoring` ends up watching
(ExpoFinanceKitModule.swift lines 686-720): an empty id list triggers the
fetch-all-accounts fallback, a non-empty list is monitored as given. -/
inductive MonitorSelection
  | monitorAll
  | monitorAccounts (ids : List Str)
deriving DecidableEq

/-- The branch of `TransactionMonitor.startMonitoring` on the resolved id
list (ExpoFinanceKitModule.swift lines 705-719). -/
def startMonitoringSelection (ids : List Str) : MonitorSelection :=
  if ids.isEmpty then MonitorSelection.monitorAll
  else MonitorSelection.monitorAccounts ids

/-- The `startMonitoringTransactions` async function
(ExpoFinanceKitModule.swift lines 266-278): availability guard,
authorization guard, then
`accountIds?.compactMap { UUID(uuidString: $0) } ?? []` handed to
`TransactionMonitor.startMonitoring`. -/
def startMonitoringTransactions (available : Bool) (auth : AuthStatus)
    (accountIds : Option (List Str)) : Except FKError MonitorSelection :=
  if !available then Except.error FKError.unavailable
  else if auth ≠ AuthStatus.authorized then Except.error FKError.unauthorized
  else
    Except.ok (startMonitoringSelection
      ((accountIds.map (fun l => l.filterMap parseUUID)).getD []))

/-- The native FinanceKit calls a data-fetching method can issue. -/
inductive NativeCall
  | authStatusQuery
  | accountsQuery
  | transactionsQuery
  | accountBalancesQuery
deriving DecidableEq

/-- An account as returned by `FinanceStore.accounts(query:)`, reduced to
the fields the embedded methods consult. -/
structure AccountRec where
  id : Str
  displayName : Str
  currencyCode : Str
deriving DecidableEq

/-- A transaction as returned by `FinanceStore.transactions(query:)`,
reduced to the fields the query predicate consults (account id and
transaction date in epoch milliseconds). -/
structure TransactionRec where
  id : Str
  accountId : Str
  dateMs : Int
deriving DecidableEq

/-- An account balance as returned by
`FinanceStore.accountBalances(query:)`. -/
structure BalanceRec where
  id : Str
  accountId : Str
  amount : Int
deriving DecidableEq

/-- The native environment a data-fetching call runs against: platform
availability, the authorization status the store reports, and the data the
store would return.  The payload transformations into JS dictionaries are
not modelled; each method returns the records the native query yields. -/
structure NativeEnv where
  available : Bool
  authStatus : AuthStatus
  accounts : List AccountRec
  transactions : List TransactionRec
  balances : List BalanceRec

/-- Result of a data-fetching method together with the trace of native
calls it issued, in order. -/
structure Outcome (α : Type) where
  result : Except FKError α
  calls : List NativeCall

/-- `getAccounts` (ExpoFinanceKitModule.swift lines 43-90): availability
guard, authorization check, accounts query, then `fetchBalances` (which
re-checks authorization and queries balances).  The joining of balances
into the returned dictionaries is not modelled. -/
def getAccounts (env : NativeEnv) : Outcome (List AccountRec) :=
  if !env.available then ⟨Except.error FKError.unavailable, []⟩
  else if env.authStatus ≠ AuthStatus.authorized then
    ⟨Except.error FKError.unauthorized, [NativeCall.authStatusQuery]⟩
  else
    ⟨Except.ok env.accounts,
      [NativeCall.authStatusQuery, NativeCall.accountsQuery,
        NativeCall.authStatusQuery, NativeCall.accountBalancesQuery]⟩

/-- The predicate `getTransactions` builds (ExpoFinanceKitModule.swift
lines 103-144): an account constraint only when the given id parses as a
UUID, plus the optional date bounds. -/
def transactionMatches (accountId : Option Str) (startMs endMs : Option Int)
    (t : TransactionRec) : Bool :=
  (match accountId.bind parseUUID with
   | some u => decide (t.accountId = u)
   | none => true)
  && (match startMs with
      | some s => decide (s ≤ t.dateMs)
      | none => true)
  && (match endMs with
      | some e => decide (t.dateMs ≤ e)
      | none => true)

/-- `getTransactions` (ExpoFinanceKitModule.swift lines 92-170):
availability guard, authorization check, then the transactions query with
the built predicate.  Sorting and dictionary conversion are not
modelled. -/
def getTransactions (env : NativeEnv) (accountId : Option Str)
    (startMs endMs : Option Int) : Outcome (List TransactionRec) :=
  if !env.available then ⟨Except.error FKError.unavailable, []⟩
  else if env.authStatus ≠ AuthStatus.authorized then
    ⟨Except.error FKError.unauthorized, [NativeCall.authStatusQuery]⟩
  else
    ⟨Except.ok (env.transactions.filter
        (transactionMatches accountId startMs endMs)),
      [NativeCall.authStatusQuery, NativeCall.transactionsQuery]⟩

/-- The keep-last deduplication by account id of `getBalances`
(ExpoFinanceKitModule.swift lines 186-191); the iteration order of the
resulting dictionary values is not part of any claim. -/
def dedupeByAccount (l : List BalanceRec) : List BalanceRec :=
  l.foldl (fun acc b => acc.filter (fun x => x.accountId ≠ b.accountId) ++ [b]) []

/-- `getBalances` (ExpoFinanceKitModule.swift lines 172-212): availability
guard, authorization check, then the balances query and deduplication. -/
def getBalances (env : NativeEnv) : Outcome (List BalanceRec) :=
  if !env.available then ⟨Except.error FKError.unavailable, []⟩
  else if env.authStatus ≠ AuthStatus.authorized then
    ⟨Except.error FKError.unauthorized, [NativeCall.authStatusQuery]⟩
  else
    ⟨Except.ok (dedupeByAccount env.balances),
      [NativeCall.authStatusQuery, NativeCall.accountBalancesQuery]⟩

/-- `getBalanceForAccount` (ExpoFinanceKitModule.swift lines 214-263):
availability guard, authorization check, account-id validity check, then a
limit-1 balances query returning the first match (or `nil`). -/
def getBalanceForAccount (env : NativeEnv) (accountId : Str) :
    Outcome (Option BalanceRec) :=
  if !env.available then ⟨Except.error FKError.unavailable, []⟩
  else if env.authStatus ≠ AuthStatus.authorized then
    ⟨Except.error FKError.unauthorized, [NativeCall.authStatusQuery]⟩
  else
    match parseUUID accountId with
    | none => ⟨Except.error FKError.invalidAccountId, [NativeCall.authStatusQuery]⟩
    | some u =>
      ⟨Except.ok ((env.balances.filter (fun b => b.accountId = u)).head?),
        [NativeCall.authStatusQuery, NativeCall.accountBalancesQuery]⟩

/-- Observable steps of the background sync task handler. -/
inductive BGAction
  | scheduleNextSync
  | installExpirationHandler (completesWithSuccess : Bool)
  | fetchChanges (accountId : Str) (succeeded : Bool)
  | storePendingFile (accountId : Str)
  | completeTask (success : Bool)
deriving DecidableEq

/-- The environment a background sync run sees: the accounts currently in
`monitoringTasks`, the result of the fallback `AccountQuery` (`none` when
it throws), and per account the batches `transactionHistory` yields
(`none` when the fetch throws). -/
structure BGEnv where
  monitored : List Str
  accountsQueryResult : Option (List Str)
  fetchResult : Str → Option (List ChangeData)

/-- `syncAccount` (ExpoFinanceKitModule.swift lines 604-629): fetch the
change delta; on success store one pending file per yielded batch; on a
thrown error log and return (no file written, no escalation). -/
def syncAccountTrace (env : BGEnv) (accountId : Str) : List BGAction :=
  match env.fetchResult accountId with
  | some changes =>
    BGAction.fetchChanges accountId true
      :: changes.map (fun _ => BGAction.storePendingFile accountId)
  | none => [BGAction.fetchChanges accountId false]

/-- `syncAllAccounts` (ExpoFinanceKitModule.swift lines 580-602): sync each
monitored account, or every account from the fallback query when none are
monitored (a failed fallback query is logged and syncs nothing). -/
def syncAllAccountsTrace (env : BGEnv) : List BGAction :=
  if env.monitored.isEmpty then
    match env.accountsQueryResult with
    | some accts => (accts.map (syncAccountTrace env)).flatten
    | none => []
  else (env.monitored.map (syncAccountTrace env)).flatten

/-- The accounts a background sync run processes. -/
def effectiveAccounts (env : BGEnv) : List Str :=
  if env.monitored.isEmpty then env.accountsQueryResult.getD []
  else env.monitored

/-- `handleBackgroundSync` (ExpoFinanceKitModule.swift lines 564-578):
re-schedule the next occurrence, install the expiration handler (which
would complete the task with `success: false`), sync all accounts, then
complete the task with `success: true`. -/
def handleBackgroundSync (env : BGEnv) : List BGAction :=
  BGAction.scheduleNextSync
    :: BGAction.installExpirationHandler false
    :: (syncAllAccountsTrace env ++ [BGAction.completeTask true])

/-- The decimal digit character for a digit value. -/
def digitChar (d : Nat) : Char := Char.ofNat (48 + d)

/-- Decimal rendering of a natural number, as Swift string interpolation
renders the capture timestamp into the pending-change file name
(ExpoFinanceKitModule.swift line 644).  Timestamps are modelled as natural
numbers; Swift's rendering of the underlying numeric value is likewise
injective. -/
def renderNat (n : Nat) : Str :=
  if n = 0 then ['0'] else ((Nat.digits 10 n).map digitChar).reverse

/-- The digit value of a decimal digit character. -/
def charVal (c : Char) : Nat := c.toNat - 48

/-- Left inverse of `renderNat`, used to prove it injective. -/
def parseNatChars (l : Str) : Nat := Nat.ofDigits 10 (l.reverse.map charVal)

/-- The file name `storeChangeForLater` writes:
`"\(accountId.uuidString)_\(timestamp).json"`
(ExpoFinanceKitModule.swift line 644). -/
def pendingFileName (accountId : Str) (timestamp : Nat) : Str :=
  accountId ++ ('_' :: renderNat timestamp) ++ ".json".data

/-- Whether `pat` is an initial segment of `s`. -/
def startsW : Str → Str → Bool
  | [], _ => true
  | _ :: _, [] => false
  | p :: ps, c :: cs => decide (p = c) && startsW ps cs

/-- Whether `pat` occurs contiguously anywhere in the string. -/
def occursIn (pat : Str) : Str → Bool
  | [] => startsW pat []
  | c :: cs => startsW pat (c :: cs) || occursIn pat cs

/-- Fuelled left-to-right replacement of every non-overlapping occurrence
of `pat` by `rep`, the semantics of Foundation's
`replacingOccurrences(of:with:)`.  The fuel only serves to make the
recursion structural; `replaceAll` supplies enough of it. -/
def replaceAllF (pat rep : Str) : Nat → Str → Str
  | 0, s => s
  | _ + 1, [] => []
  | fuel + 1, c :: cs =>
    if startsW pat (c :: cs) && !pat.isEmpty then
      rep ++ replaceAllF pat rep fuel ((c :: cs).drop pat.length)
    else
      c :: replaceAllF pat rep fuel cs

/-- `s.replacingOccurrences(of: pat, with: rep)`: replace every
non-overlapping occurrence of `pat`, scanning left to right. -/
def replaceAll (pat rep s : Str) : Str := replaceAllF pat rep s.length s

/-- Whether a pattern has no proper border: no non-empty proper prefix of
it is also a suffix of it.  Such a pattern cannot overlap itself. -/
def properBorderFree (pat : Str) : Bool :=
  (List.range pat.length).all
    (fun k => decide (k = 0) || !(decide (pat.take k = pat.drop (pat.length - k))))

/-- The substring the extension strips from its bundle identifier
(BackgroundDeliveryExtension.swift lines 82 and 108). -/
def bgExtMarker : Str := ".background-extension".data

/-- The fallback bundle identifier both processes use. -/
def defaultBundleId : Str := "com.expo.financekit".data

/-- The suffix appended to form the Darwin notification name. -/
def dataChangedMark : Str := ".dataChanged".data

/-- The notification name the extension posts under
(BackgroundDeliveryExtension.swift lines 108-110):
`Bundle.main.bundleIdentifier?.replacingOccurrences(of:
".background-extension", with: "") ?? "com.expo.financekit"` followed by
`".dataChanged"`. -/
def extensionNotificationName (bundleId : Option Str) : Str :=
  ((bundleId.map (fun b => replaceAll bgExtMarker [] b)).getD defaultBundleId)
    ++ dataChangedMark

/-- The notification name the main-process observer registers under
(ExpoFinanceKitModule.swift lines 520-521):
`(Bundle.main.bundleIdentifier ?? "com.expo.financekit") + ".dataChanged"`. -/
def observerNotificationName (bundleId : Option Str) : Str :=
  (bundleId.getD defaultBundleId) ++ dataChangedMark

/-- A posted Darwin notification: its name and its (absent) payload. -/
structure DarwinPost where
  name : Str
  payload : Option Str
deriving DecidableEq

/-- `notifyMainApp` (BackgroundDeliveryExtension.swift lines 107-121):
post the Darwin notification under the derived name, with `nil` userInfo
(no payload). -/
def notifyMainApp (extBundleId : Option Str) : DarwinPost :=
  ⟨extensionNotificationName extBundleId, none⟩

/-- A value of TypeScript type `Date | number`: either a `Date` object
(always truthy) or a numeric epoch-milliseconds timestamp (falsy when
zero). -/
inductive DateInput
  | dateObj (ms : Int)
  | num (ms : Int)
deriving DecidableEq

/-- JavaScript truthiness of an optional date bound, as tested by
`options.startDate && options.endDate` (validators.ts line 57). -/
def truthyDate : Option DateInput → Bool
  | none => false
  | some (DateInput.dateObj _) => true
  | some (DateInput.num n) => decide (n ≠ 0)

/-- The epoch-milliseconds value a bound compares as, after
`x instanceof Date ? x : new Date(x)` (validators.ts lines 58-59). -/
def dateMs : DateInput → Int
  | DateInput.dateObj ms => ms
  | DateInput.num ms => ms

/-- The `FinanceKitErrorCode` closed set of the TypeScript layer. -/
inductive FKErrorCode
  | unavailable
  | unauthorized
  | invalidAccountId
  | accountNotFound
  | invalidDateRange
  | rateLimitExceeded
  | networkError
  | unknown
deriving DecidableEq

/-- `TransactionQueryOptions` reduced to the fields
`validateTransactionQueryOptions` checks.  The enum-valued fields
(`transactionTypes`, `statuses`, `creditDebitIndicator`) always pass their
membership checks under the typed model and are omitted; numeric fields
are modelled as integers (the `Number.isInteger` checks always pass). -/
structure TransactionQueryOptions where
  startDate : Option DateInput
  endDate : Option DateInput
  minAmount : Option Int
  maxAmount : Option Int
  limit : Option Int
  offset : Option Int
deriving DecidableEq

/-- The offset check of `validateTransactionQueryOptions`
(validators.ts lines 87-94). -/
def validateOffset (o : TransactionQueryOptions) : Option FKErrorCode :=
  match o.offset with
  | some x => if x < 0 then some FKErrorCode.unknown else none
  | none => none

/-- The limit check of `validateTransactionQueryOptions`
(validators.ts lines 78-85). -/
def validateLimit (o : TransactionQueryOptions) : Option FKErrorCode :=
  match o.limit with
  | some l => if l ≤ 0 then some FKErrorCode.unknown else validateOffset o
  | none => validateOffset o

/-- The amount-range check of `validateTransactionQueryOptions`
(validators.ts lines 69-76). -/
def validateAmounts (o : TransactionQueryOptions) : Option FKErrorCode :=
  match o.minAmount, o.maxAmount with
  | some lo, some hi =>
    if lo > hi then some FKErrorCode.unknown else validateLimit o
  | _, _ => validateLimit o

/-- `validateTransactionQueryOptions` (validators.ts lines 56-126),
returning the code of the first error thrown, or `none` when every check
passes.  The date-range check runs first and only when both bounds are
truthy. -/
def validateTransactionQueryOptions (o : TransactionQueryOptions) :
    Option FKErrorCode :=
  if truthyDate o.startDate && truthyDate o.endDate then
    match o.startDate, o.endDate with
    | some s, some e =>
      if dateMs s > dateMs e then some FKErrorCode.invalidDateRange
      else validateAmounts o
    | _, _ => validateAmounts o
  else validateAmounts o

/-- Remaining files of a drain pass: exactly the unprocessed ones. -/
theorem processFiles_fst (registered : Bool) (fs : List PendingFile) :
    (processFiles registered fs).1 = fs.filter (fun f => !fileProcessed f) := by
  induction fs with
  | nil => rfl
  | cons f fs ih =>
    by_cases hext : f.ext = jsonExt
    · cases hparse : f.parse with
      | some d =>
        simp [processFiles, hext, hparse, List.filter, fileProcessed, ih]
      | none =>
        simp [processFiles, hext, hparse, List.filter, fileProcessed, ih]
    · simp [processFiles, hext, List.filter, fileProcessed, ih]

/-- Emitted payloads of a drain pass: the parsed contents of the processed
files in loop order when a module is registered, nothing otherwise. -/
theorem processFiles_snd (registered : Bool) (fs : List PendingFile) :
    (processFiles registered fs).2 =
      if registered then
        fs.filterMap (fun f => if f.ext = jsonExt then f.parse else none)
      else [] := by
  induction fs with
  | nil => cases registered <;> rfl
  | cons f fs ih =>
    by_cases hext : f.ext = jsonExt
    · cases hparse : f.parse with
      | some d =>
        cases registered <;>
          simp [processFiles, hext, hparse, List.filterMap, ih]
      | none =>
        cases registered <;>
          simp [processFiles, hext, hparse, List.filterMap, ih]
    · cases registered <;>
        simp [processFiles, hext, List.filterMap, ih]

/-- C1 (counterexample): the claim that a pending-change file is deleted
only after its parsed contents have been handed to the emission callback
is false: with no module registered, `processPendingChanges` still deletes
a well-formed file without emitting anything. -/
theorem C1_counterexample :
    ¬ (∀ (registered : Bool) (fs : List PendingFile) (f : PendingFile),
        f ∈ fs → f ∉ (processFiles registered fs).1 →
        ∃ d, f.parse = some d ∧ d ∈ (processFiles registered fs).2) := by
  intro h
  obtain ⟨d, _, hmem⟩ :=
    h false [sampleGoodFile] sampleGoodFile (List.mem_singleton.mpr rfl) (by decide)
  have hnil : (processFiles false [sampleGoodFile]).2 = [] := by decide
  rw [hnil] at hmem
  exact List.not_mem_nil d hmem

/-- C1 (amended): a pending-change file is deleted exactly when it has the
`json` extension and its contents read and parse successfully; files that
fail to read or parse remain on disk for the next drain.  Emission happens
only when a module is registered, and deletion does not depend on it: the
emitted payloads are the parsed contents of the processed files when a
module is registered, and nothing otherwise. -/
theorem C1_delete_after_parse_only (registered : Bool) (fs : List PendingFile) :
    (processFiles registered fs).1 = fs.filter (fun f => !fileProcessed f)
    ∧ (processFiles registered fs).2 =
        (if registered then
          fs.filterMap (fun f => if f.ext = jsonExt then f.parse else none)
        else []) :=
  ⟨processFiles_fst registered fs, processFiles_snd registered fs⟩

/-- C4: in a drain pass over a set of files containing a malformed file,
every well-formed file is still parsed, emitted (a module being
registered) and deleted, and no malformed file is deleted. -/
theorem C4_corrupt_file_isolation (fs : List PendingFile)
    (_hbad : ∃ g ∈ fs, g.ext = jsonExt ∧ g.parse = none) :
    (∀ f ∈ fs, fileProcessed f = true →
      f ∉ (processFiles true fs).1
        ∧ ∃ d, f.parse = some d ∧ d ∈ (processFiles true fs).2)
    ∧ ∀ f ∈ fs, f.ext = jsonExt → f.parse = none →
        f ∈ (processFiles true fs).1 := by
  constructor
  · intro f hf hproc
    have hext : f.ext = jsonExt := by
      have := hproc
      unfold fileProcessed at this
      exact of_decide_eq_true (Bool.and_elim_left this)
    obtain ⟨d, hd⟩ := Option.isSome_iff_exists.mp (by
      have := hproc
      unfold fileProcessed at this
      exact Bool.and_elim_right this)
    constructor
    · rw [processFiles_fst]
      intro hmem
      have hf2 := (List.mem_filter.mp hmem).2
      rw [hproc] at hf2
      simp at hf2
    · refine ⟨d, hd, ?_⟩
      rw [processFiles_snd]
      simp only [if_true]
      exact List.mem_filterMap.mpr ⟨f, hf, by simp [hext, hd]⟩
  · intro f hf hext hnone
    rw [processFiles_fst]
    exact List.mem_filter.mpr ⟨hf, by simp [fileProcessed, hext, hnone]⟩

/-- C4 (witness): a concrete drain pass over one well-formed and one
malformed file: the well-formed file is emitted and deleted, the malformed
one remains. -/
theorem C4_witness :
    (∃ g ∈ [sampleGoodFile, sampleBadFile], g.ext = jsonExt ∧ g.parse = none)
    ∧ sampleGoodFile ∉ (processFiles true [sampleGoodFile, sampleBadFile]).1
    ∧ sampleChange ∈ (processFiles true [sampleGoodFile, sampleBadFile]).2
    ∧ sampleBadFile ∈ (processFiles true [sampleGoodFile, sampleBadFile]).1 := by
  have h := C4_corrupt_file_isolation [sampleGoodFile, sampleBadFile]
    ⟨sampleBadFile, by decide, by decide, rfl⟩
  refine ⟨⟨sampleBadFile, by decide, by decide, rfl⟩, ?_, ?_, ?_⟩
  · exact (h.1 sampleGoodFile (by decide) (by decide)).1
  · obtain ⟨d, hd, hmem⟩ := (h.1 sampleGoodFile (by decide) (by decide)).2
    have hds : d = sampleChange := by
      have hgp : sampleGoodFile.parse = some sampleChange := rfl
      rw [hgp] at hd
      exact (Option.some_inj.mp hd).symm
    rwa [hds] at hmem
  · exact h.2 sampleBadFile (by decide) (by decide) rfl

/-- Helper: starting the consuming loop at index `start ≤ c`, with
cancellation observed at check `c`, at most `c - start` items are
forwarded. -/
theorem monitorLoop_length_le (cancelled : Nat → Bool) (items : List ChangeData)
    (c : Nat) (hc : cancelled c = true) :
    ∀ start, start ≤ c → start + (monitorLoop cancelled items start).length ≤ c := by
  induction items with
  | nil => intro start hs; simpa [monitorLoop] using hs
  | cons item rest ih =>
    intro start hs
    by_cases h : cancelled start = true
    · simpa [monitorLoop, h] using hs
    · have hne : start ≠ c := by
        intro e
        rw [e] at h
        exact h hc
      have hlt : start + 1 ≤ c := Nat.lt_of_le_of_ne hs hne
      have hih := ih (start + 1) hlt
      simp [monitorLoop, h]
      omega

/-- Helper: the forwarded items are an initial segment of the stream. -/
theorem monitorLoop_take (cancelled : Nat → Bool) (items : List ChangeData) :
    ∀ start, monitorLoop cancelled items start
      = items.take (monitorLoop cancelled items start).length := by
  induction items with
  | nil => intro start; simp [monitorLoop]
  | cons item rest ih =>
    intro start
    by_cases h : cancelled start = true
    · simp [monitorLoop, h]
    · have hstep : monitorLoop cancelled (item :: rest) start
          = item :: monitorLoop cancelled rest (start + 1) := by
        simp [monitorLoop, h]
      rw [hstep, List.length_cons, List.take_succ_cons, ← ih (start + 1)]

/-- C5: the cancellation check inside the per-account consuming loop stops
forwarding once cancellation is requested: if `Task.isCancelled` is true
by check `c`, at most the first `c` stream items (buffered or not) are
handed to the emission callback, and they form an initial segment of the
stream. -/
theorem C5_cancellation_stops_forwarding (cancelled : Nat → Bool)
    (items : List ChangeData) (c : Nat) (hc : cancelled c = true) :
    (monitorLoop cancelled items 0).length ≤ c
    ∧ monitorLoop cancelled items 0
        = items.take (monitorLoop cancelled items 0).length := by
  refine ⟨?_, monitorLoop_take cancelled items 0⟩
  have := monitorLoop_length_le cancelled items c hc 0 (Nat.zero_le c)
  omega

/-- C5 (witness): a stream with two buffered items and cancellation
requested at check 1 forwards at most one item. -/
theorem C5_witness :
    (monitorLoop (fun i => decide (1 ≤ i)) [sampleChange, sampleChange] 0).length ≤ 1 :=
  (C5_cancellation_stops_forwarding (fun i => decide (1 ≤ i))
    [sampleChange, sampleChange] 1 (by decide)).1

/-- C9: `getHistoryToken` returns `nil` for every account, so both the
background sync and the monitoring session call the native
`transactionHistory` API with a `nil` resumption token, and
`clearHistoryToken` — which only removes a `UserDefaults` key that
`getHistoryToken` never reads — changes the behavior of no subsequent
fetch. -/
theorem C9_history_token_inert
    (native : Str → Option HistoryToken → Bool → List ChangeData)
    (d : Defaults) (a b : Str) :
    getHistoryToken d a = none
    ∧ syncFetch native d a = native a none false
    ∧ monitorFetch native d a = native a none true
    ∧ syncFetch native (clearHistoryToken d b) a = syncFetch native d a
    ∧ monitorFetch native (clearHistoryToken d b) a = monitorFetch native d a :=
  ⟨rfl, rfl, rfl, rfl, rfl⟩

/-- C10: `startMonitoringTransactions` silently drops every account id that
is not a valid UUID — it never raises `invalidAccountId` — and when every
provided id is invalid the resolved list is empty, which triggers the
monitor-all-accounts fallback. -/
theorem C10_invalid_ids_silently_dropped (ids : List Str)
    (hall : ∀ s ∈ ids, isValidUUIDStr s = false) :
    startMonitoringTransactions true AuthStatus.authorized (some ids)
        = Except.ok MonitorSelection.monitorAll
    ∧ (∀ l : List Str,
        startMonitoringTransactions true AuthStatus.authorized (some l)
          = Except.ok (startMonitoringSelection (l.filterMap parseUUID)))
    ∧ (∀ l : List Str,
        startMonitoringTransactions true AuthStatus.authorized (some l)
          ≠ Except.error FKError.invalidAccountId) := by
  refine ⟨?_, ?_, ?_⟩
  · have hnil : ids.filterMap parseUUID = [] :=
      List.filterMap_eq_nil_iff.mpr (fun s hs => by simp [parseUUID, hall s hs])
    simp [startMonitoringTransactions, hnil, startMonitoringSelection]
  · intro l
    simp [startMonitoringTransactions]
  · intro l
    simp [startMonitoringTransactions]

/-- C10 (witness): a single malformed id monitors all accounts. -/
theorem C10_witness :
    (∀ s ∈ ["not-a-uuid".data], isValidUUIDStr s = false)
    ∧ startMonitoringTransactions true AuthStatus.authorized
        (some ["not-a-uuid".data]) = Except.ok MonitorSelection.monitorAll :=
  ⟨by decide, (C10_invalid_ids_silently_dropped ["not-a-uuid".data] (by decide)).1⟩

/-- C2: with FinanceKit available but authorization not granted, each of
the four data-fetching methods rejects with the `unauthorized` error and
never issues its underlying native data query. -/
theorem C2_authorization_gating (env : NativeEnv) (havail : env.available = true)
    (hauth : env.authStatus ≠ AuthStatus.authorized)
    (accountId : Str) (aid : Option Str) (startMs endMs : Option Int) :
    ((getAccounts env).result = Except.error FKError.unauthorized
      ∧ NativeCall.accountsQuery ∉ (getAccounts env).calls
      ∧ NativeCall.accountBalancesQuery ∉ (getAccounts env).calls)
    ∧ ((getTransactions env aid startMs endMs).result
          = Except.error FKError.unauthorized
      ∧ NativeCall.transactionsQuery ∉ (getTransactions env aid startMs endMs).calls)
    ∧ ((getBalances env).result = Except.error FKError.unauthorized
      ∧ NativeCall.accountBalancesQuery ∉ (getBalances env).calls)
    ∧ ((getBalanceForAccount env accountId).result
          = Except.error FKError.unauthorized
      ∧ NativeCall.accountBalancesQuery ∉ (getBalanceForAccount env accountId).calls) := by
  simp [getAccounts, getTransactions, getBalances, getBalanceForAccount, havail, hauth]

/-- C2 (witness): a concrete denied environment rejects `getAccounts` with
`unauthorized` and issues only the authorization-status query. -/
theorem C2_witness :
    (getAccounts ⟨true, AuthStatus.denied, [], [], []⟩).result
        = Except.error FKError.unauthorized
    ∧ NativeCall.accountsQuery ∉ (getAccounts ⟨true, AuthStatus.denied, [], [], []⟩).calls :=
  ⟨(C2_authorization_gating ⟨true, AuthStatus.denied, [], [], []⟩ rfl (by decide)
      [] none none none).1.1,
    (C2_authorization_gating ⟨true, AuthStatus.denied, [], [], []⟩ rfl (by decide)
      [] none none none).1.2.1⟩

/-- Helper: a sync of one account always records its fetch attempt. -/
theorem fetchChanges_mem_syncAccountTrace (env : BGEnv) (a : Str) :
    BGAction.fetchChanges a ((env.fetchResult a).isSome) ∈ syncAccountTrace env a := by
  cases h : env.fetchResult a <;> simp [syncAccountTrace, h]

/-- Helper: every account in a synced list has its fetch in the trace. -/
theorem fetch_mem_map_flatten (env : BGEnv) (l : List Str) (a : Str) (ha : a ∈ l) :
    BGAction.fetchChanges a ((env.fetchResult a).isSome)
      ∈ (l.map (syncAccountTrace env)).flatten :=
  List.mem_flatten.mpr
    ⟨syncAccountTrace env a, List.mem_map_of_mem _ ha,
      fetchChanges_mem_syncAccountTrace env a⟩

/-- Helper: per-account sync traces never complete the task. -/
theorem completeTask_not_mem_map_flatten (env : BGEnv) (b : Bool) (l : List Str) :
    BGAction.completeTask b ∉ (l.map (syncAccountTrace env)).flatten := by
  intro h
  obtain ⟨t, ht, hmem⟩ := List.mem_flatten.mp h
  obtain ⟨a, -, rfl⟩ := List.mem_map.mp ht
  cases hf : env.fetchResult a <;> simp [syncAccountTrace, hf] at hmem

/-- Helper: every effective account has its fetch in the sync-all trace. -/
theorem fetch_mem_syncAll (env : BGEnv) (a : Str) (ha : a ∈ effectiveAccounts env) :
    BGAction.fetchChanges a ((env.fetchResult a).isSome) ∈ syncAllAccountsTrace env := by
  unfold effectiveAccounts at ha
  unfold syncAllAccountsTrace
  by_cases hm : env.monitored.isEmpty
  · rw [if_pos hm] at ha
    rw [if_pos hm]
    cases hq : env.accountsQueryResult with
    | none =>
      rw [hq] at ha
      simp at ha
    | some accts =>
      rw [hq] at ha
      simp only [Option.getD_some] at ha
      exact fetch_mem_map_flatten env accts a ha
  · rw [if_neg hm] at ha
    rw [if_neg hm]
    exact fetch_mem_map_flatten env env.monitored a ha

/-- Helper: the sync-all trace never completes the task. -/
theorem completeTask_not_mem_syncAll (env : BGEnv) (b : Bool) :
    BGAction.completeTask b ∉ syncAllAccountsTrace env := by
  unfold syncAllAccountsTrace
  by_cases hm : env.monitored.isEmpty
  · rw [if_pos hm]
    cases hq : env.accountsQueryResult with
    | none => simp
    | some accts => exact completeTask_not_mem_map_flatten env b accts
  · rw [if_neg hm]
    exact completeTask_not_mem_map_flatten env b env.monitored

/-- C6: the background sync handler first re-schedules the next occurrence
and installs the expiration handler (which would mark the task failed),
then fetches the change delta for every effective account (the monitored
ones, or all accounts when none are monitored), and finally marks the task
successful — never failed — no matter how many per-account fetches
failed. -/
theorem C6_background_sync_trace (env : BGEnv) :
    (handleBackgroundSync env).head? = some BGAction.scheduleNextSync
    ∧ (handleBackgroundSync env)[1]? = some (BGAction.installExpirationHandler false)
    ∧ (handleBackgroundSync env).getLast? = some (BGAction.completeTask true)
    ∧ (∀ a ∈ effectiveAccounts env,
        BGAction.fetchChanges a ((env.fetchResult a).isSome)
          ∈ handleBackgroundSync env)
    ∧ BGAction.completeTask false ∉ handleBackgroundSync env := by
  refine ⟨rfl, by simp [handleBackgroundSync], ?_, ?_, ?_⟩
  · have hassoc : handleBackgroundSync env
        = (BGAction.scheduleNextSync :: BGAction.installExpirationHandler false
            :: syncAllAccountsTrace env) ++ [BGAction.completeTask true] := by
      simp [handleBackgroundSync]
    rw [hassoc, List.getLast?_concat]
  · intro a ha
    unfold handleBackgroundSync
    exact List.mem_cons_of_mem _ (List.mem_cons_of_mem _
      (List.mem_append_left _ (fetch_mem_syncAll env a ha)))
  · intro h
    simp only [handleBackgroundSync, List.mem_cons, List.mem_append,
      List.mem_singleton] at h
    rcases h with h | h | h | h
    · exact BGAction.noConfusion h
    · exact BGAction.noConfusion h
    · exact completeTask_not_mem_syncAll env false h
    · simp at h

/-- Helper: the offset check never yields the date-range code. -/
theorem validateOffset_ne_dateRange (o : TransactionQueryOptions) :
    validateOffset o ≠ some FKErrorCode.invalidDateRange := by
  rcases ho : o.offset with _ | x
  · simp [validateOffset, ho]
  · by_cases hx : x < 0 <;> simp [validateOffset, ho, hx]

/-- Helper: the limit check never yields the date-range code. -/
theorem validateLimit_ne_dateRange (o : TransactionQueryOptions) :
    validateLimit o ≠ some FKErrorCode.invalidDateRange := by
  rcases hl : o.limit with _ | l
  · simp only [validateLimit, hl]
    exact validateOffset_ne_dateRange o
  · by_cases hx : l ≤ 0
    · simp [validateLimit, hl, hx]
    · simp only [validateLimit, hl, if_neg hx]
      exact validateOffset_ne_dateRange o

/-- Helper: the amount-range check never yields the date-range code. -/
theorem validateAmounts_ne_dateRange (o : TransactionQueryOptions) :
    validateAmounts o ≠ some FKErrorCode.invalidDateRange := by
  rcases hlo : o.minAmount with _ | lo
  · simp only [validateAmounts, hlo]
    exact validateLimit_ne_dateRange o
  · rcases hhi : o.maxAmount with _ | hi
    · simp only [validateAmounts, hlo, hhi]
      exact validateLimit_ne_dateRange o
    · by_cases hgt : lo > hi
      · simp [validateAmounts, hlo, hhi, hgt]
      · simp only [validateAmounts, hlo, hhi, if_neg hgt]
        exact validateLimit_ne_dateRange o

/-- C8 (counterexample): the claim that `validateTransactionQueryOptions`
raises `InvalidDateRange` for every options object whose start date is
strictly after its end date is false: a numeric end date of `0` is falsy
in JavaScript, so the guard `options.startDate && options.endDate` skips
the check for `{startDate: 1000, endDate: 0}`. -/
theorem C8_counterexample :
    ¬ (∀ (o : TransactionQueryOptions) (s e : DateInput),
        o.startDate = some s → o.endDate = some e → dateMs s > dateMs e →
        validateTransactionQueryOptions o = some FKErrorCode.invalidDateRange) := by
  intro h
  have := h ⟨some (DateInput.num 1000), some (DateInput.num 0), none, none, none, none⟩
    (DateInput.num 1000) (DateInput.num 0) rfl rfl (by decide)
  exact absurd this (by decide)

/-- C8 (amended): `validateTransactionQueryOptions` yields the
`InvalidDateRange` code exactly when both bounds are present and truthy (a
`Date` object, or a nonzero numeric timestamp — a numeric `0` counts as
absent) and the start date is strictly after the end date; no other check
of the validator yields that code. -/
theorem C8_date_range_check (o : TransactionQueryOptions) :
    validateTransactionQueryOptions o = some FKErrorCode.invalidDateRange ↔
      ∃ s e, o.startDate = some s ∧ o.endDate = some e
        ∧ truthyDate (some s) = true ∧ truthyDate (some e) = true
        ∧ dateMs s > dateMs e := by
  unfold validateTransactionQueryOptions
  by_cases h : (truthyDate o.startDate && truthyDate o.endDate) = true
  · have hs : truthyDate o.startDate = true := Bool.and_elim_left h
    have he : truthyDate o.endDate = true := Bool.and_elim_right h
    rcases hsd : o.startDate with _ | s
    · rw [hsd] at hs
      simp [truthyDate] at hs
    rcases hed : o.endDate with _ | e
    · rw [hed] at he
      simp [truthyDate] at he
    rw [hsd] at hs h
    rw [hed] at he h
    rw [if_pos h]
    show (if dateMs s > dateMs e then some FKErrorCode.invalidDateRange
        else validateAmounts o) = some FKErrorCode.invalidDateRange ↔ _
    by_cases hgt : dateMs s > dateMs e
    · rw [if_pos hgt]
      constructor
      · intro _
        exact ⟨s, e, rfl, rfl, hs, he, hgt⟩
      · intro _
        rfl
    · rw [if_neg hgt]
      constructor
      · intro hv
        exact absurd hv (validateAmounts_ne_dateRange o)
      · rintro ⟨s1, e1, hs1, he1, -, -, hgt1⟩
        obtain rfl : s = s1 := Option.some_inj.mp hs1
        obtain rfl : e = e1 := Option.some_inj.mp he1
        exact absurd hgt1 hgt
  · rw [if_neg h]
    constructor
    · intro hv
      exact absurd hv (validateAmounts_ne_dateRange o)
    · rintro ⟨s, e, hs1, he1, hts, hte, -⟩
      exact absurd (show (truthyDate o.startDate && truthyDate o.endDate) = true by
        rw [hs1, he1, hts, hte]; rfl) h

/-- Helper: `charVal` inverts `digitChar` on decimal digit values. -/
theorem charVal_digitChar (d : Nat) (hd : d < 10) : charVal (digitChar d) = d := by
  interval_cases d <;> rfl

/-- Helper: `parseNatChars` is a left inverse of `renderNat`. -/
theorem parseNatChars_renderNat (n : Nat) : parseNatChars (renderNat n) = n := by
  by_cases h : n = 0
  · subst h
    rfl
  · rw [renderNat, if_neg h]
    unfold parseNatChars
    rw [List.reverse_reverse, List.map_map]
    have hmap : (Nat.digits 10 n).map (charVal ∘ digitChar) = Nat.digits 10 n := by
      calc (Nat.digits 10 n).map (charVal ∘ digitChar)
          = (Nat.digits 10 n).map id :=
            List.map_congr_left (fun x hx =>
              charVal_digitChar x (Nat.digits_lt_base (by norm_num) hx))
        _ = Nat.digits 10 n := List.map_id _
    rw [hmap, Nat.ofDigits_digits]

/-- Helper: the decimal rendering of timestamps is injective. -/
theorem renderNat_injective {a b : Nat} (h : renderNat a = renderNat b) : a = b := by
  have hp := congrArg parseNatChars h
  rwa [parseNatChars_renderNat, parseNatChars_renderNat] at hp

/-- C3: two background-scheduler writes for the same account with
different capture timestamps produce different
`{accountId}_{timestamp}.json` file names, so neither overwrites the
other's pending-change file. -/
theorem C3_distinct_timestamps_distinct_filenames (accountId : Str) (t1 t2 : Nat)
    (h : t1 ≠ t2) :
    pendingFileName accountId t1 ≠ pendingFileName accountId t2 := by
  intro he
  apply h
  unfold pendingFileName at he
  simp only [List.append_assoc, List.cons_append] at he
  have h3 := List.append_cancel_left he
  injection h3 with _ h4
  exact renderNat_injective (List.append_cancel_right h4)

/-- C3 (witness): timestamps 1 and 2 give different file names. -/
theorem C3_witness : pendingFileName "A".data 1 ≠ pendingFileName "A".data 2 :=
  C3_distinct_timestamps_distinct_filenames "A".data 1 2 (by decide)

/-- Helper: `startsW` characterises list-append decomposition. -/
theorem startsW_iff (pat s : Str) : startsW pat s = true ↔ ∃ t, s = pat ++ t := by
  induction pat generalizing s with
  | nil =>
    simp [startsW]
  | cons p ps ih =>
    cases s with
    | nil => simp [startsW]
    | cons c cs =>
      simp only [startsW, Bool.and_eq_true, decide_eq_true_eq, ih, List.cons_append]
      constructor
      · rintro ⟨rfl, t, rfl⟩
        exact ⟨t, rfl⟩
      · rintro ⟨t, ht⟩
        injection ht with h1 h2
        exact ⟨h1.symm, t, h2⟩

/-- Helper: a match at the start is an occurrence. -/
theorem occursIn_of_startsW {pat s : Str} (h : startsW pat s = true) :
    occursIn pat s = true := by
  cases s with
  | nil => exact h
  | cons c cs => simp [occursIn, h]

/-- Helper: no occurrence anywhere means no match at the start. -/
theorem not_startsW_of_not_occurs {pat s : Str} (h : occursIn pat s = false) :
    startsW pat s = false := by
  cases hv : startsW pat s
  · rfl
  · rw [occursIn_of_startsW hv] at h
    exact absurd h (by simp)

/-- Helper: no occurrence in a cons means none in its tail. -/
theorem occursIn_cons_false {pat : Str} {c : Char} {cs : Str}
    (h : occursIn pat (c :: cs) = false) : occursIn pat cs = false := by
  simp only [occursIn, Bool.or_eq_false_iff] at h
  exact h.2

/-- Helper: the replacement scanner leaves the empty string unchanged. -/
theorem replaceAllF_nil (pat rep : Str) (fuel : Nat) :
    replaceAllF pat rep fuel [] = [] := by
  cases fuel <;> rfl

/-- Helper: the replacement scanner leaves a string without occurrences
unchanged. -/
theorem replaceAllF_no_occurs (pat rep : Str) :
    ∀ (fuel : Nat) (s : Str), occursIn pat s = false →
      replaceAllF pat rep fuel s = s := by
  intro fuel
  induction fuel with
  | zero => intro s _; rfl
  | succ f ih =>
    intro s h
    cases s with
    | nil => rfl
    | cons c cs =>
      have h1 : startsW pat (c :: cs) = false := not_startsW_of_not_occurs h
      simp [replaceAllF, h1, ih cs (occursIn_cons_false h)]

/-- Helper: `replaceAll` leaves a string without occurrences unchanged. -/
theorem replaceAll_no_occurs (pat rep s : Str) (h : occursIn pat s = false) :
    replaceAll pat rep s = s :=
  replaceAllF_no_occurs pat rep s.length s h

/-- Helper: unfolding a border-freeness certificate. -/
theorem properBorderFree_spec {pat : Str} (h : properBorderFree pat = true) :
    ∀ k, 0 < k → k < pat.length →
      pat.take k ≠ pat.drop (pat.length - k) := by
  intro k hk0 hkl heq
  have hall := List.all_eq_true.mp h k (List.mem_range.mpr hkl)
  simp only [Bool.or_eq_true, decide_eq_true_eq, Bool.not_eq_true',
    decide_eq_false_iff_not] at hall
  rcases hall with hall | hall
  · omega
  · exact hall heq

/-- Helper: with a border-free pattern absent from `m ≠ []`, no match of
the pattern starts at the head of `m ++ pat`. -/
theorem not_startsW_append {pat m : Str} (hb : properBorderFree pat = true)
    (_hnp : pat ≠ []) (hocc : occursIn pat m = false) (hm : m ≠ []) :
    startsW pat (m ++ pat) = false := by
  cases hv : startsW pat (m ++ pat)
  · rfl
  · exfalso
    obtain ⟨t, ht⟩ := (startsW_iff pat (m ++ pat)).mp hv
    by_cases hln : pat.length ≤ m.length
    · have h1 : (m ++ pat).take pat.length = pat := by
        rw [ht, List.take_left]
      have h2 : (m ++ pat).take pat.length = m.take pat.length :=
        List.take_append_of_le_length hln
      have hpm : pat = m.take pat.length := h1.symm.trans h2
      have hsw : startsW pat m = true :=
        (startsW_iff pat m).mpr ⟨m.drop pat.length, by
          conv_lhs => rw [← List.take_append_drop pat.length m]
          rw [← hpm]⟩
      have hoc := occursIn_of_startsW hsw
      rw [hocc] at hoc
      exact Bool.false_ne_true hoc
    · push_neg at hln
      have h4 : (m ++ pat).drop m.length = pat := List.drop_left m pat
      have h5 : (pat ++ t).drop m.length = pat.drop m.length ++ t :=
        List.drop_append_of_le_length (le_of_lt hln)
      rw [ht, h5] at h4
      have htake : pat.take (pat.length - m.length) = pat.drop m.length := by
        have hlen : (pat.drop m.length).length = pat.length - m.length := by
          simp
        calc pat.take (pat.length - m.length)
            = (pat.drop m.length ++ t).take (pat.length - m.length) := by rw [h4]
          _ = (pat.drop m.length).take (pat.length - m.length) :=
              List.take_append_of_le_length (by omega)
          _ = pat.drop m.length := by
              rw [← hlen, List.take_length]
      have hm0 : 0 < m.length := List.length_pos.mpr hm
      have hcontra := properBorderFree_spec hb (pat.length - m.length)
        (by omega) (by omega)
      rw [show pat.length - (pat.length - m.length) = m.length by omega] at hcontra
      exact hcontra htake

/-- Helper: stripping a border-free pattern from `m ++ pat` with the
pattern absent from `m` yields `m`. -/
theorem replaceAllF_strip {pat : Str} (hb : properBorderFree pat = true)
    (hnp : pat ≠ []) :
    ∀ (m : Str) (fuel : Nat), occursIn pat m = false →
      m.length + pat.length ≤ fuel →
      replaceAllF pat [] fuel (m ++ pat) = m := by
  intro m
  induction m with
  | nil =>
    intro fuel hocc hfuel
    have hl : 0 < pat.length := List.length_pos.mpr hnp
    cases fuel with
    | zero =>
      exfalso
      omega
    | succ f =>
      obtain ⟨p, ps, hp⟩ : ∃ p ps, pat = p :: ps := by
        cases pat with
        | nil => exact absurd rfl hnp
        | cons p ps => exact ⟨p, ps, rfl⟩
      subst hp
      have hsw : startsW (p :: ps) (p :: ps) = true :=
        (startsW_iff _ _).mpr ⟨[], (List.append_nil _).symm⟩
      rw [List.nil_append]
      simp [replaceAllF, hsw, List.drop_length, replaceAllF_nil]
  | cons c m2 ih =>
    intro fuel hocc hfuel
    cases fuel with
    | zero => simp at hfuel
    | succ f =>
      have hsw : startsW pat ((c :: m2) ++ pat) = false :=
        not_startsW_append hb hnp hocc (List.cons_ne_nil c m2)
      have hcons : (c :: m2) ++ pat = c :: (m2 ++ pat) := rfl
      rw [hcons] at hsw
      have hstep : replaceAllF pat [] (f + 1) (c :: (m2 ++ pat))
          = c :: replaceAllF pat [] f (m2 ++ pat) := by
        simp [replaceAllF, hsw]
      rw [hcons, hstep,
        ih f (occursIn_cons_false hocc) (by simp at hfuel; omega)]

/-- Helper: `replaceAll` strips a trailing border-free pattern absent from
the stem. -/
theorem replaceAll_strip {pat : Str} (hb : properBorderFree pat = true)
    (hnp : pat ≠ []) (m : Str) (hocc : occursIn pat m = false) :
    replaceAll pat [] (m ++ pat) = m := by
  unfold replaceAll
  exact replaceAllF_strip hb hnp m (m ++ pat).length hocc (by simp)

/-- C7 (counterexample): the name equality does not hold for every bundle
identifier of the stated form: `replacingOccurrences` strips every
occurrence of `".background-extension"`, not only a suffix, so a main app
whose own identifier contains that substring computes a different posting
name than the observer registers. -/
theorem C7_counterexample :
    extensionNotificationName (some "a.background-extension".data)
      ≠ observerNotificationName (some "a.background-extension".data) := by
  decide

/-- C7 (amended): for every main-app bundle identifier that does not
contain `".background-extension"` as a substring, the posting name the
extension computes — whether its own bundle identifier equals the main
app's or carries the `".background-extension"` suffix — equals the name
the main-process observer registers, and the posted broadcast carries no
payload. -/
theorem C7_notification_names_agree (mainAppId : Str)
    (h : occursIn bgExtMarker mainAppId = false) :
    extensionNotificationName (some mainAppId)
        = observerNotificationName (some mainAppId)
    ∧ extensionNotificationName (some (mainAppId ++ bgExtMarker))
        = observerNotificationName (some mainAppId)
    ∧ (notifyMainApp (some mainAppId)).payload = none
    ∧ (notifyMainApp (some (mainAppId ++ bgExtMarker))).payload = none := by
  refine ⟨?_, ?_, rfl, rfl⟩
  · show replaceAll bgExtMarker [] mainAppId ++ dataChangedMark
        = mainAppId ++ dataChangedMark
    rw [replaceAll_no_occurs bgExtMarker [] mainAppId h]
  · show replaceAll bgExtMarker [] (mainAppId ++ bgExtMarker) ++ dataChangedMark
        = mainAppId ++ dataChangedMark
    rw [replaceAll_strip (by decide) (by decide) mainAppId h]

/-- C7 (witness): a typical reverse-DNS identifier satisfies the
hypothesis, and the suffixed extension identifier yields the observer's
name. -/
theorem C7_witness :
    occursIn bgExtMarker "com.example.app".data = false
    ∧ extensionNotificationName (some ("com.example.app".data ++ bgExtMarker))
        = observerNotificationName (some "com.example.app".data) :=
  ⟨by decide,
    (C7_notification_names_agree "com.example.app".data (by decide)).2.1⟩
